import Mathlib

/-!
Shallow embedding of src/script.py, the Gainer bridge relayer: the
confirmation-tracking event watcher (`BridgeEventListener`), the idempotent
relay (`TransactionProcessor`), the rate-limited liveness reporter
(`HealthMonitor`) and the orchestrator loop (`main`), together with theorems
settling the specification claims.  External collaborators (the web3 Ledger
Clients and the HTTP Health Sink) are modeled as explicit per-call
environments; the in-memory dedup sets (`processed_events`,
`processed_source_tx_ids`) and the reporter timestamp (`last_checkin`) are
explicit state.
-/

namespace Gainer

/-- A decoded `TokensDeposited` log entry (the event ABI at script.py lines
27-42, with the log receipt fields `transactionHash` and `blockNumber`).
Byte-string fields (hashes, addresses, the bytes32 id) are modeled as
naturals. -/
structure DepositEvent where
  transactionHash : Nat
  blockNumber : Nat
  sender : Nat
  recipient : Nat
  amount : Nat
  destinationChainId : Nat
  transactionId : Nat
deriving DecidableEq

/-- Per-poll environment: the outcomes of the two source-chain client calls
made by `BridgeEventListener.get_confirmed_events` (script.py lines 167-170).
`latest_block = Except.error ()` models `get_latest_block_number` raising
(caught by the surrounding try); `Except.ok 0` is the disconnected path that
returns 0 (script.py line 130).  `new_entries = Except.error ()` models
`event_filter.get_new_entries()` raising (network failure or a log that the
web3 filter cannot decode); `Except.ok entries` is the decoded batch. -/
structure PollEnv where
  latest_block : Except Unit Nat
  new_entries : Except Unit (List DepositEvent)

/-- The `for event in new_entries` loop of
`BridgeEventListener.get_confirmed_events` (script.py lines 175-186): skip an
entry whose `transactionHash` is already in `processed_events`; admit an entry
iff `latest_block - blockNumber >= block_confirmations` (Python int
subtraction, hence `Int`), adding its hash to `processed_events` and appending
it to `confirmed_events`; otherwise leave it pending.  Returns the
`confirmed_events` list (in arrival order, as the source appends) and the
updated `processed_events`. -/
def confirmed_events_loop (block_confirmations : Int) (latest_block : Nat) :
    List DepositEvent → List Nat → List DepositEvent × List Nat
  | [], processed => ([], processed)
  | event :: rest, processed =>
    if event.transactionHash ∈ processed then
      confirmed_events_loop block_confirmations latest_block rest processed
    else if block_confirmations ≤ (latest_block : Int) - (event.blockNumber : Int) then
      (event ::
        (confirmed_events_loop block_confirmations latest_block rest
          (event.transactionHash :: processed)).1,
       (confirmed_events_loop block_confirmations latest_block rest
          (event.transactionHash :: processed)).2)
    else
      confirmed_events_loop block_confirmations latest_block rest processed

/-- `BridgeEventListener.get_confirmed_events` (script.py lines 161-191).
State is `processed_events`; result is the returned list plus the state after
the call.  Any raising client call (`Except.error`) lands in the
`except Exception` handler, which returns `[]`; a latest height of 0 (the
disconnected path) returns `[]` at line 168; an empty batch returns `[]` at
lines 171-172; otherwise the confirmation loop runs. -/
def get_confirmed_events (block_confirmations : Int) (processed_events : List Nat)
    (env : PollEnv) : List DepositEvent × List Nat :=
  match env.latest_block with
  | .error _ => ([], processed_events)
  | .ok latest_block =>
    if latest_block = 0 then ([], processed_events)
    else
      match env.new_entries with
      | .error _ => ([], processed_events)
      | .ok new_entries =>
        if new_entries.isEmpty then ([], processed_events)
        else confirmed_events_loop block_confirmations latest_block new_entries processed_events

/-- The steps of `TransactionProcessor.process_deposit_event` that can raise
after the idempotency check (script.py lines 240-260): the destination nonce
query, the gas-price query, `build_transaction`, `estimate_gas`, local signing
and `send_raw_transaction`. -/
inductive RelayStep where
  | nonce
  | gasPrice
  | build
  | estimate
  | sign
  | broadcast
deriving DecidableEq

/-- The spec-level relay outcome, classifying the three return paths of
`process_deposit_event`: the early-return at line 235 (id already processed),
the successful return at line 271, and the `except` return at line 274. -/
inductive RelayResult where
  | Submitted
  | Skipped
  | Failed
deriving DecidableEq

/-- The boolean actually returned by `process_deposit_event` on each path:
`True` at lines 235 and 271, `False` at line 274. -/
def RelayResult.toBool : RelayResult → Bool
  | .Failed => false
  | _ => true

/-- Count of destination Ledger Client calls issued up to and including a
failing step: `get_transaction_count` (line 240), `gas_price` (line 244),
`estimate_gas` (line 256) and `send_raw_transaction` (line 260);
`build_transaction` and signing are local. -/
def destCallsBefore : RelayStep → Nat
  | .nonce => 1
  | .gasPrice => 2
  | .build => 2
  | .estimate => 3
  | .sign => 3
  | .broadcast => 4

/-- Observable outcome of one `process_deposit_event` call: the path taken,
how many destination-chain calls were issued, whether `send_raw_transaction`
was reached, whether it succeeded, and the `processed_source_tx_ids` state
after the call. -/
structure RelayCall where
  result : RelayResult
  destCalls : Nat
  broadcastAttempted : Bool
  broadcastSucceeded : Bool
  state' : List Nat
deriving DecidableEq

/-- `TransactionProcessor.process_deposit_event` (script.py lines 218-274).
State is `processed_source_tx_ids`.  The environment `env` is the outcome of
the destination-chain interaction: `none` means every step succeeds (the
source then records the id at line 270 and returns True); `some step` means
that step raises, landing in the `except` handler at line 272, which returns
False without recording the id.  The idempotency check at lines 233-235 runs
before any destination call and returns True immediately. -/
def process_deposit_event (processed_source_tx_ids : List Nat) (event : DepositEvent)
    (env : Option RelayStep) : RelayCall :=
  if event.transactionId ∈ processed_source_tx_ids then
    ⟨RelayResult.Skipped, 0, false, false, processed_source_tx_ids⟩
  else
    match env with
    | none =>
      ⟨RelayResult.Submitted, 4, true, true, event.transactionId :: processed_source_tx_ids⟩
    | some step =>
      ⟨RelayResult.Failed, destCallsBefore step, decide (step = RelayStep.broadcast), false,
        processed_source_tx_ids⟩

/-- Repeated `process_deposit_event` calls, each delivering an event together
with its destination-chain outcome, threading `processed_source_tx_ids`.
Returns the per-call observations and the final state. -/
def runRelays : List Nat → List (DepositEvent × Option RelayStep) → List RelayCall × List Nat
  | processed, [] => ([], processed)
  | processed, pe :: rest =>
    (process_deposit_event processed pe.1 pe.2 ::
       (runRelays (process_deposit_event processed pe.1 pe.2).state' rest).1,
     (runRelays (process_deposit_event processed pe.1 pe.2).state' rest).2)

/-- `rest.all (result = Skipped)` for every suffix that starts right after a
`Submitted` call: the property that once a call returns `Submitted`, every
later call in the sequence returns `Skipped`. -/
def afterSubmittedSkipped : List RelayCall → Bool
  | [] => true
  | c :: rest =>
    (if c.result = RelayResult.Submitted then
        rest.all fun c' => decide (c'.result = RelayResult.Skipped)
      else true)
      && afterSubmittedSkipped rest

/-- The liveness report status literal passed by `main` to
`HealthMonitor.report_status`: 'OPERATIONAL' at line 358, 'ERROR' at
line 371. -/
inductive Status where
  | OPERATIONAL
  | ERROR
deriving DecidableEq

/-- Outcome of the `requests.post` call in `HealthMonitor.report_status`
(script.py line 307): an HTTP response was received (with its status code), or
the request raised `RequestException` (sink unreachable / timeout). -/
inductive SinkOutcome where
  | responded (code : Nat)
  | unreachable
deriving DecidableEq

/-- The JSON payload built at script.py lines 300-306 (the constant
`relayerId` string is omitted). -/
structure LivenessPayload where
  status : Status
  timestamp : Int
  lastSourceBlock : Nat
  pendingTransactions : Nat
deriving DecidableEq

/-- `HealthMonitor.checkin_interval` (script.py line 291). -/
def checkin_interval : Int := 60

/-- `HealthMonitor.report_status` (script.py lines 293-314).  State is
`last_checkin` (initially 0, line 290); time is in seconds.  A call inside the
rate window returns at line 297 with no push.  Otherwise `requests.post` is
attempted: if a response is received (any status code) the update
`last_checkin = current_time` at line 312 runs; if the post raises
`RequestException` the handler at line 313 swallows it and line 312 never
runs.  Returns the pushed payload (`some` exactly when a push was attempted)
and the new `last_checkin`. -/
def report_status (last_checkin : Int) (current_time : Int) (status : Status)
    (last_processed_block : Nat) (pending_tx : Nat) (sink : SinkOutcome) :
    Option LivenessPayload × Int :=
  if current_time - last_checkin < checkin_interval then
    (none, last_checkin)
  else
    match sink with
    | .responded _ =>
      (some ⟨status, current_time, last_processed_block, pending_tx⟩, current_time)
    | .unreachable =>
      (some ⟨status, current_time, last_processed_block, pending_tx⟩, last_checkin)

/-- A sequence of `report_status` calls with status OPERATIONAL (as issued by
the main loop at lines 357-361), each given its wall-clock time and sink
outcome, threading `last_checkin`.  Returns the per-call push attempts and the
final `last_checkin`. -/
def runReports : Int → List (Int × SinkOutcome) → List (Option LivenessPayload) × Int
  | last_checkin, [] => ([], last_checkin)
  | last_checkin, call :: rest =>
    ((report_status last_checkin call.1 Status.OPERATIONAL 0 0 call.2).1 ::
       (runReports (report_status last_checkin call.1 Status.OPERATIONAL 0 0 call.2).2 rest).1,
     (runReports (report_status last_checkin call.1 Status.OPERATIONAL 0 0 call.2).2 rest).2)

/-- The fatal-error path of `main` (script.py line 371): on an unhandled loop
error it calls `monitor.report_status('ERROR', 0, 0)` — which goes through the
same rate-limited `report_status`. -/
def fatal_error_report (last_checkin : Int) (current_time : Int) (sink : SinkOutcome) :
    Option LivenessPayload × Int :=
  report_status last_checkin current_time Status.ERROR 0 0 sink

/-- The two dedup sets owned by the loop in `main`: the listener's
`processed_events` and the processor's `processed_source_tx_ids`. -/
structure SystemState where
  listener : List Nat
  relay : List Nat
deriving DecidableEq

/-- Environment of one orchestrator cycle: the poll environment plus the
destination-chain outcome for each relayed event, consumed positionally (an
exhausted list means the remaining relays succeed). -/
structure CycleEnv where
  poll : PollEnv
  relayEnvs : List (Option RelayStep)

/-- The `for event in confirmed_events: processor.process_deposit_event(event)`
loop of `main` (script.py lines 351-352). -/
def relayAll : List Nat → List DepositEvent → List (Option RelayStep) → List RelayCall × List Nat
  | processed, [], _ => ([], processed)
  | processed, event :: rest, envs =>
    (process_deposit_event processed event (envs.headD none) ::
       (relayAll (process_deposit_event processed event (envs.headD none)).state' rest
          envs.tail).1,
     (relayAll (process_deposit_event processed event (envs.headD none)).state' rest
        envs.tail).2)

/-- One iteration of the main loop (script.py lines 346-363): poll the
listener, relay every confirmed event in order.  Returns the new system
state, the cycle's confirmed events and the relay observations. -/
def runCycle (block_confirmations : Int) (st : SystemState) (env : CycleEnv) :
    SystemState × List DepositEvent × List RelayCall :=
  (⟨(get_confirmed_events block_confirmations st.listener env.poll).2,
    (relayAll st.relay (get_confirmed_events block_confirmations st.listener env.poll).1
       env.relayEnvs).2⟩,
   (get_confirmed_events block_confirmations st.listener env.poll).1,
   (relayAll st.relay (get_confirmed_events block_confirmations st.listener env.poll).1
      env.relayEnvs).1)

/-- Repeated orchestrator cycles, threading the system state.  Returns the
final state and, per cycle, the confirmed events and relay observations. -/
def runCycles (block_confirmations : Int) :
    SystemState → List CycleEnv → SystemState × List (List DepositEvent × List RelayCall)
  | st, [] => (st, [])
  | st, env :: rest =>
    ((runCycles block_confirmations (runCycle block_confirmations st env).1 rest).1,
     ((runCycle block_confirmations st env).2.1, (runCycle block_confirmations st env).2.2) ::
       (runCycles block_confirmations (runCycle block_confirmations st env).1 rest).2)

/-- A run of `get_confirmed_events` across a list of latest-height values, the
log fetch redelivering the single entry `event` on every cycle (the interface
requirement of spec section 4.1 step 4: the Ledger Client's log retrieval
covers the unconfirmed window).  Records, per cycle, whether `event` was
returned as confirmed. -/
def runSimplePolls (block_confirmations : Int) (event : DepositEvent) :
    List Nat → List Nat → List Bool
  | _, [] => []
  | processed, latest :: rest =>
    decide (event ∈
        (get_confirmed_events block_confirmations processed
          ⟨Except.ok latest, Except.ok [event]⟩).1) ::
      runSimplePolls block_confirmations event
        (get_confirmed_events block_confirmations processed
          ⟨Except.ok latest, Except.ok [event]⟩).2 rest

/-- The confirmation-gating pattern asserted by the spec: `false` until the
first height at which `block_confirmations ≤ latest - blockNumber`, `true`
exactly there, `false` ever after. -/
def firstEligible (block_confirmations : Int) (blockNumber : Nat) : List Nat → List Bool
  | [] => []
  | latest :: rest =>
    if block_confirmations ≤ (latest : Int) - (blockNumber : Int) then
      true :: rest.map fun _ => false
    else
      false :: firstEligible block_confirmations blockNumber rest

/-! ### Lemmas about the confirmation loop -/

/-- A hash is in the state after the loop iff it was there before or belongs
to an event the loop returned as confirmed. -/
theorem loop_mem_state (conf : Int) (latest : Nat) :
    ∀ (entries : List DepositEvent) (processed : List Nat) (x : Nat),
      x ∈ (confirmed_events_loop conf latest entries processed).2 ↔
        x ∈ processed ∨
          x ∈ ((confirmed_events_loop conf latest entries processed).1.map
            fun e => e.transactionHash)
  | [], processed, x => by simp [confirmed_events_loop]
  | e :: rest, processed, x => by
    by_cases hmem : e.transactionHash ∈ processed
    · simp only [confirmed_events_loop, if_pos hmem]
      exact loop_mem_state conf latest rest processed x
    · by_cases hconf : conf ≤ (latest : Int) - (e.blockNumber : Int)
      · simp only [confirmed_events_loop, if_neg hmem, if_pos hconf, List.map_cons,
          List.mem_cons]
        rw [loop_mem_state conf latest rest (e.transactionHash :: processed) x]
        simp only [List.mem_cons]
        tauto
      · simp only [confirmed_events_loop, if_neg hmem, if_neg hconf]
        exact loop_mem_state conf latest rest processed x

/-- Every event the loop returns has a hash that was not yet in the state. -/
theorem loop_out_fresh (conf : Int) (latest : Nat) :
    ∀ (entries : List DepositEvent) (processed : List Nat) (e : DepositEvent),
      e ∈ (confirmed_events_loop conf latest entries processed).1 →
      e.transactionHash ∉ processed
  | [], processed, e => by simp [confirmed_events_loop]
  | ev :: rest, processed, e => by
    by_cases hmem : ev.transactionHash ∈ processed
    · simp only [confirmed_events_loop, if_pos hmem]
      exact loop_out_fresh conf latest rest processed e
    · by_cases hconf : conf ≤ (latest : Int) - (ev.blockNumber : Int)
      · simp only [confirmed_events_loop, if_neg hmem, if_pos hconf, List.mem_cons]
        rintro (rfl | hin)
        · exact hmem
        · intro hp
          exact loop_out_fresh conf latest rest (ev.transactionHash :: processed) e hin
            (List.mem_cons_of_mem _ hp)
      · simp only [confirmed_events_loop, if_neg hmem, if_neg hconf]
        exact loop_out_fresh conf latest rest processed e

/-- The hashes of the events returned by one loop run are pairwise distinct. -/
theorem loop_nodup (conf : Int) (latest : Nat) :
    ∀ (entries : List DepositEvent) (processed : List Nat),
      ((confirmed_events_loop conf latest entries processed).1.map
        fun e => e.transactionHash).Nodup
  | [], processed => by simp [confirmed_events_loop]
  | ev :: rest, processed => by
    by_cases hmem : ev.transactionHash ∈ processed
    · simp only [confirmed_events_loop, if_pos hmem]
      exact loop_nodup conf latest rest processed
    · by_cases hconf : conf ≤ (latest : Int) - (ev.blockNumber : Int)
      · simp only [confirmed_events_loop, if_neg hmem, if_pos hconf, List.map_cons,
          List.nodup_cons]
        refine ⟨?_, loop_nodup conf latest rest (ev.transactionHash :: processed)⟩
        intro hin
        rcases List.mem_map.mp hin with ⟨e, he, heq⟩
        refine loop_out_fresh conf latest rest (ev.transactionHash :: processed) e he ?_
        rw [heq]
        exact List.mem_cons_self _ _
      · simp only [confirmed_events_loop, if_neg hmem, if_neg hconf]
        exact loop_nodup conf latest rest processed

/-- Every event the loop returns satisfies the confirmation-depth test. -/
theorem loop_gating (conf : Int) (latest : Nat) :
    ∀ (entries : List DepositEvent) (processed : List Nat) (e : DepositEvent),
      e ∈ (confirmed_events_loop conf latest entries processed).1 →
      conf ≤ (latest : Int) - (e.blockNumber : Int)
  | [], processed, e => by simp [confirmed_events_loop]
  | ev :: rest, processed, e => by
    by_cases hmem : ev.transactionHash ∈ processed
    · simp only [confirmed_events_loop, if_pos hmem]
      exact loop_gating conf latest rest processed e
    · by_cases hconf : conf ≤ (latest : Int) - (ev.blockNumber : Int)
      · simp only [confirmed_events_loop, if_neg hmem, if_pos hconf, List.mem_cons]
        rintro (rfl | hin)
        · exact hconf
        · exact loop_gating conf latest rest (ev.transactionHash :: processed) e hin
      · simp only [confirmed_events_loop, if_neg hmem, if_neg hconf]
        exact loop_gating conf latest rest processed e

/-- The loop returns its admitted events in arrival order: the returned list
is a subsequence of the delivered entries. -/
theorem loop_sublist (conf : Int) (latest : Nat) :
    ∀ (entries : List DepositEvent) (processed : List Nat),
      List.Sublist (confirmed_events_loop conf latest entries processed).1 entries
  | [], processed => by simp [confirmed_events_loop]
  | ev :: rest, processed => by
    by_cases hmem : ev.transactionHash ∈ processed
    · simp only [confirmed_events_loop, if_pos hmem]
      exact List.Sublist.cons ev (loop_sublist conf latest rest processed)
    · by_cases hconf : conf ≤ (latest : Int) - (ev.blockNumber : Int)
      · simp only [confirmed_events_loop, if_neg hmem, if_pos hconf]
        exact List.Sublist.cons₂ ev
          (loop_sublist conf latest rest (ev.transactionHash :: processed))
      · simp only [confirmed_events_loop, if_neg hmem, if_neg hconf]
        exact List.Sublist.cons ev (loop_sublist conf latest rest processed)

/-- `get_confirmed_events` either returns `([], processed)` on one of the
early-exit paths, or runs the confirmation loop on the delivered batch. -/
theorem gce_cases (conf : Int) (processed : List Nat) (env : PollEnv) :
    get_confirmed_events conf processed env = ([], processed) ∨
      ∃ latest entries, env.latest_block = Except.ok latest ∧
        env.new_entries = Except.ok entries ∧
        get_confirmed_events conf processed env =
          confirmed_events_loop conf latest entries processed := by
  obtain ⟨lb, ne⟩ := env
  cases lb with
  | error u => exact Or.inl rfl
  | ok latest =>
    by_cases h0 : latest = 0
    · exact Or.inl (by simp [get_confirmed_events, h0])
    · cases ne with
      | error u => exact Or.inl (by simp [get_confirmed_events, h0])
      | ok entries =>
        by_cases he : entries.isEmpty
        · exact Or.inl (by simp [get_confirmed_events, h0, he])
        · exact Or.inr ⟨latest, entries, rfl, rfl, by simp [get_confirmed_events, h0, he]⟩

/-- A returned event's hash was not yet in `processed_events`. -/
theorem gce_out_fresh (conf : Int) (processed : List Nat) (env : PollEnv) (e : DepositEvent)
    (hin : e ∈ (get_confirmed_events conf processed env).1) :
    e.transactionHash ∉ processed := by
  rcases gce_cases conf processed env with h | ⟨latest, entries, _, _, h⟩
  · rw [h] at hin
    simp at hin
  · rw [h] at hin
    exact loop_out_fresh conf latest entries processed e hin

/-- `processed_events` never shrinks across a poll. -/
theorem gce_mono (conf : Int) (processed : List Nat) (env : PollEnv) (x : Nat)
    (hx : x ∈ processed) : x ∈ (get_confirmed_events conf processed env).2 := by
  rcases gce_cases conf processed env with h | ⟨latest, entries, _, _, h⟩
  · rw [h]
    exact hx
  · rw [h]
    exact (loop_mem_state conf latest entries processed x).mpr (Or.inl hx)

/-- A hash is in `processed_events` after a poll iff it was there before or
belongs to an event that poll returned as confirmed. -/
theorem gce_mem_state (conf : Int) (processed : List Nat) (env : PollEnv) (x : Nat) :
    x ∈ (get_confirmed_events conf processed env).2 ↔
      x ∈ processed ∨
        x ∈ ((get_confirmed_events conf processed env).1.map fun e => e.transactionHash) := by
  rcases gce_cases conf processed env with h | ⟨latest, entries, _, _, h⟩
  · rw [h]
    simp
  · rw [h]
    exact loop_mem_state conf latest entries processed x

/-- The hashes of one poll's returned events are pairwise distinct. -/
theorem gce_nodup (conf : Int) (processed : List Nat) (env : PollEnv) :
    ((get_confirmed_events conf processed env).1.map fun e => e.transactionHash).Nodup := by
  rcases gce_cases conf processed env with h | ⟨latest, entries, _, _, h⟩
  · rw [h]
    simp
  · rw [h]
    exact loop_nodup conf latest entries processed

/-- Every event a poll returns passed the confirmation-depth test against that
poll's latest height. -/
theorem gce_gating (conf : Int) (processed : List Nat) (env : PollEnv) (latest : Nat)
    (e : DepositEvent) (hlb : env.latest_block = Except.ok latest)
    (hin : e ∈ (get_confirmed_events conf processed env).1) :
    conf ≤ (latest : Int) - (e.blockNumber : Int) := by
  rcases gce_cases conf processed env with h | ⟨latest', entries, hlb', hne', h⟩
  · rw [h] at hin
    simp at hin
  · rw [hlb] at hlb'
    obtain rfl : latest = latest' := by injection hlb'
    rw [h] at hin
    exact loop_gating conf latest entries processed e hin

/-- The returned events are a subsequence of the delivered batch. -/
theorem gce_sublist (conf : Int) (processed : List Nat) (env : PollEnv)
    (entries : List DepositEvent) (hne : env.new_entries = Except.ok entries) :
    List.Sublist (get_confirmed_events conf processed env).1 entries := by
  rcases gce_cases conf processed env with h | ⟨latest, ents, hlb', hne', h⟩
  · rw [h]
    exact List.nil_sublist entries
  · rw [hne] at hne'
    obtain rfl : entries = ents := by injection hne'
    rw [h]
    exact loop_sublist conf latest entries processed

/-- A single-entry poll whose entry is already deduplicated returns nothing
and leaves the state unchanged, for any latest height. -/
theorem gce_single_mem (conf : Int) (latest : Nat) (processed : List Nat) (e : DepositEvent)
    (hmem : e.transactionHash ∈ processed) :
    get_confirmed_events conf processed ⟨Except.ok latest, Except.ok [e]⟩ = ([], processed) := by
  by_cases h0 : latest = 0
  · simp [get_confirmed_events, h0]
  · simp [get_confirmed_events, h0, confirmed_events_loop, hmem]

/-- A single-entry poll whose entry is fresh but below the confirmation depth
returns nothing and leaves the state unchanged. -/
theorem gce_single_pending (conf : Int) (latest : Nat) (processed : List Nat) (e : DepositEvent)
    (hmem : e.transactionHash ∉ processed)
    (hconf : ¬ conf ≤ (latest : Int) - (e.blockNumber : Int)) :
    get_confirmed_events conf processed ⟨Except.ok latest, Except.ok [e]⟩ = ([], processed) := by
  by_cases h0 : latest = 0
  · simp [get_confirmed_events, h0]
  · simp [get_confirmed_events, h0, confirmed_events_loop, hmem, hconf]

/-- A single-entry poll whose entry is fresh and deep enough returns it and
records its hash. -/
theorem gce_single_confirmed (conf : Int) (latest : Nat) (processed : List Nat)
    (e : DepositEvent) (hmem : e.transactionHash ∉ processed) (h0 : latest ≠ 0)
    (hconf : conf ≤ (latest : Int) - (e.blockNumber : Int)) :
    get_confirmed_events conf processed ⟨Except.ok latest, Except.ok [e]⟩ =
      ([e], e.transactionHash :: processed) := by
  simp [get_confirmed_events, h0, confirmed_events_loop, hmem, hconf]

/-- Once an event's hash is recorded, single-entry redelivery polls return it
on no later cycle. -/
theorem runSimplePolls_already (conf : Int) (e : DepositEvent) :
    ∀ (processed : List Nat) (heights : List Nat),
      e.transactionHash ∈ processed →
      runSimplePolls conf e processed heights = heights.map fun _ => false
  | _, [], _ => rfl
  | processed, latest :: rest, h => by
    simp only [runSimplePolls]
    rw [gce_single_mem conf latest processed e h]
    simp [runSimplePolls_already conf e processed rest h]

/-- Under per-cycle redelivery, a fresh event is surfaced exactly at the first
height that satisfies the confirmation test, and never again. -/
theorem runSimplePolls_firstEligible (conf : Int) (e : DepositEvent) :
    ∀ (processed : List Nat) (heights : List Nat),
      e.transactionHash ∉ processed →
      (∀ H ∈ heights, 0 < H) →
      runSimplePolls conf e processed heights = firstEligible conf e.blockNumber heights
  | _, [], _, _ => rfl
  | processed, latest :: rest, hmem, hpos => by
    have h0 : latest ≠ 0 := Nat.pos_iff_ne_zero.mp (hpos latest (List.mem_cons_self _ _))
    by_cases hconf : conf ≤ (latest : Int) - (e.blockNumber : Int)
    · simp only [runSimplePolls, firstEligible, if_pos hconf]
      rw [gce_single_confirmed conf latest processed e hmem h0 hconf]
      simp [runSimplePolls_already conf e (e.transactionHash :: processed) rest
        (List.mem_cons_self _ _)]
    · simp only [runSimplePolls, firstEligible, if_neg hconf]
      rw [gce_single_pending conf latest processed e hmem hconf]
      simp only [List.mem_cons] at hpos
      simp [hconf,
        runSimplePolls_firstEligible conf e processed rest hmem
          fun H hH => hpos H (Or.inr hH)]

/-! ### Claim theorems about the Confirmation Watcher -/

/-- C7: `poll()` never raises: any error during a polling cycle (the source
client reporting unreachable — modeled as height 0 — or a raising height
query, log fetch, or log decode, the latter occurring inside the web3
filter's fetch) is caught and yields an empty event sequence with unchanged
state, never propagating to the orchestrator.  Totality of
`get_confirmed_events` is the no-raise guarantee itself. -/
theorem C7_poll_never_raises :
    ∀ (conf : Int) (processed : List Nat) (env : PollEnv),
      ((∃ u, env.latest_block = Except.error u) ∨ env.latest_block = Except.ok 0 ∨
        (∃ u, env.new_entries = Except.error u)) →
      get_confirmed_events conf processed env = ([], processed) := by
  intro conf processed env h
  rcases h with ⟨u, hu⟩ | h0 | ⟨u, hu⟩
  · simp [get_confirmed_events, hu]
  · simp [get_confirmed_events, h0]
  · rcases hlb : env.latest_block with u' | latest
    · simp [get_confirmed_events, hlb]
    · by_cases h0 : latest = 0
      · simp [get_confirmed_events, hlb, h0]
      · simp [get_confirmed_events, hlb, hu, h0]

/-- Witness for C7 at a concrete failing environment. -/
theorem C7_witness :
    get_confirmed_events 12 [3]
        ⟨Except.error (), Except.ok [⟨1, 100, 0, 0, 0, 0, 5⟩]⟩ = ([], [3]) :=
  C7_poll_never_raises 12 [3] ⟨Except.error (), Except.ok [⟨1, 100, 0, 0, 0, 0, 5⟩]⟩
    (Or.inl ⟨(), rfl⟩)

/-- C6: ConfirmationState invariant — (1) an event whose `sourceTxHash` was
already surfaced is never re-surfaced by `poll()`, even if the log fetch
redelivers it; (2) a hash never leaves the set; (3) a hash enters the set
exactly at the moment its event is returned as confirmed; (4) within one poll
no hash is surfaced twice. -/
theorem C6_confirmation_state_invariant :
    (∀ (conf : Int) (processed : List Nat) (env : PollEnv) (e : DepositEvent),
        e ∈ (get_confirmed_events conf processed env).1 → e.transactionHash ∉ processed) ∧
    (∀ (conf : Int) (processed : List Nat) (env : PollEnv) (x : Nat),
        x ∈ processed → x ∈ (get_confirmed_events conf processed env).2) ∧
    (∀ (conf : Int) (processed : List Nat) (env : PollEnv) (x : Nat),
        x ∈ (get_confirmed_events conf processed env).2 ↔
          x ∈ processed ∨
            x ∈ ((get_confirmed_events conf processed env).1.map fun e => e.transactionHash)) ∧
    (∀ (conf : Int) (processed : List Nat) (env : PollEnv),
        ((get_confirmed_events conf processed env).1.map fun e => e.transactionHash).Nodup) :=
  ⟨gce_out_fresh, gce_mono, gce_mem_state, gce_nodup⟩

/-- Witness for C6: a concretely surfaced event had a fresh hash. -/
theorem C6_witness :
    (⟨1, 100, 0, 0, 0, 0, 5⟩ : DepositEvent).transactionHash ∉ ([3] : List Nat) :=
  C6_confirmation_state_invariant.1 12 [3]
    ⟨Except.ok 120, Except.ok [⟨1, 100, 0, 0, 0, 0, 5⟩]⟩ ⟨1, 100, 0, 0, 0, 0, 5⟩ (by decide)

/-- C2: confirmation gating — (1) an event is never returned as confirmed in
a cycle whose latest height `H` has `H - blockNumber < confirmationDepth`;
(2) when the log fetch redelivers the entry each cycle (the interface
requirement the spec places on the Ledger Client), the event is returned
exactly once, at the first cycle whose height meets the threshold. -/
theorem C2_confirmation_gating :
    (∀ (conf : Int) (processed : List Nat) (env : PollEnv) (latest : Nat) (e : DepositEvent),
        env.latest_block = Except.ok latest →
        e ∈ (get_confirmed_events conf processed env).1 →
        conf ≤ (latest : Int) - (e.blockNumber : Int)) ∧
    (∀ (conf : Int) (e : DepositEvent) (processed : List Nat) (heights : List Nat),
        e.transactionHash ∉ processed →
        (∀ H ∈ heights, 0 < H) →
        runSimplePolls conf e processed heights = firstEligible conf e.blockNumber heights) :=
  ⟨fun conf processed env latest e hlb hin => gce_gating conf processed env latest e hlb hin,
   fun conf e processed heights hmem hpos =>
     runSimplePolls_firstEligible conf e processed heights hmem hpos⟩

/-- Witness for C2, Scenario A: depth 12, event at block 100, heights
[105, 108, 112, 113] — surfaced exactly at 112. -/
theorem C2_witness :
    runSimplePolls 12 ⟨1, 100, 0, 0, 0, 0, 5⟩ [] [105, 108, 112, 113] =
      [false, false, true, false] :=
  (C2_confirmation_gating.2 12 ⟨1, 100, 0, 0, 0, 0, 5⟩ [] [105, 108, 112, 113]
      (by decide) (by decide)).trans (by decide)

/-- C9 counterexample: a poll whose batch arrives in descending block order is
returned in that same (non-ascending) order — `poll()` does not sort by block
number. -/
theorem C9_counterexample :
    ((get_confirmed_events 12 []
        ⟨Except.ok 300,
          Except.ok [⟨1, 200, 0, 0, 0, 0, 11⟩, ⟨2, 100, 0, 0, 0, 0, 12⟩]⟩).1.map
      fun e => e.blockNumber) = [200, 100] ∧ ¬ (200 : Nat) ≤ 100 := by
  decide

/-- C9 (amended): the returned sequence preserves the order in which the log
fetch delivered the entries — it is a subsequence of the delivered batch; no
sorting by block number or log index is performed. -/
theorem C9_arrival_order :
    ∀ (conf : Int) (processed : List Nat) (env : PollEnv) (entries : List DepositEvent),
      env.new_entries = Except.ok entries →
      List.Sublist (get_confirmed_events conf processed env).1 entries :=
  fun conf processed env entries h => gce_sublist conf processed env entries h

/-- Witness for the amended C9 at a concrete out-of-order batch. -/
theorem C9_witness :
    List.Sublist
      (get_confirmed_events 12 []
        ⟨Except.ok 300,
          Except.ok [⟨1, 200, 0, 0, 0, 0, 11⟩, ⟨2, 100, 0, 0, 0, 0, 12⟩]⟩).1
      [⟨1, 200, 0, 0, 0, 0, 11⟩, ⟨2, 100, 0, 0, 0, 0, 12⟩] :=
  C9_arrival_order 12 []
    ⟨Except.ok 300, Except.ok [⟨1, 200, 0, 0, 0, 0, 11⟩, ⟨2, 100, 0, 0, 0, 0, 12⟩]⟩
    [⟨1, 200, 0, 0, 0, 0, 11⟩, ⟨2, 100, 0, 0, 0, 0, 12⟩] rfl

/-! ### Lemmas about the idempotent relay -/

/-- The early return at lines 233-235: an already-recorded id is skipped with
no destination call and no state change, whatever the destination environment
would have done. -/
theorem process_deposit_event_skip (processed : List Nat) (e : DepositEvent)
    (env : Option RelayStep) (hmem : e.transactionId ∈ processed) :
    process_deposit_event processed e env =
      ⟨RelayResult.Skipped, 0, false, false, processed⟩ := by
  unfold process_deposit_event
  rw [if_pos hmem]

/-- A fresh id whose destination interaction fully succeeds is recorded and
reported `Submitted`. -/
theorem process_fresh_ok (processed : List Nat) (e : DepositEvent)
    (hnot : e.transactionId ∉ processed) :
    process_deposit_event processed e none =
      ⟨RelayResult.Submitted, 4, true, true, e.transactionId :: processed⟩ := by
  unfold process_deposit_event
  rw [if_neg hnot]

/-- A fresh id whose destination interaction raises at `step` is reported
`Failed` with the state unchanged. -/
theorem process_fresh_fail (processed : List Nat) (e : DepositEvent) (step : RelayStep)
    (hnot : e.transactionId ∉ processed) :
    process_deposit_event processed e (some step) =
      ⟨RelayResult.Failed, destCallsBefore step, decide (step = RelayStep.broadcast), false,
        processed⟩ := by
  unfold process_deposit_event
  rw [if_neg hnot]

/-- Once the id is recorded, every further delivery of an event carrying it is
skipped: no broadcast, no state change. -/
theorem runRelays_skip (tid : Nat) :
    ∀ (ps : List (DepositEvent × Option RelayStep)) (processed : List Nat),
      tid ∈ processed →
      (∀ p ∈ ps, p.1.transactionId = tid) →
      (∀ c ∈ (runRelays processed ps).1,
          c.result = RelayResult.Skipped ∧ c.broadcastSucceeded = false) ∧
      (runRelays processed ps).2 = processed
  | [], processed => by
    intro _ _
    exact ⟨by simp [runRelays], rfl⟩
  | pe :: rest, processed => by
    intro hmem hall
    have hid : pe.1.transactionId = tid := hall pe (List.mem_cons_self _ _)
    have hpd : process_deposit_event processed pe.1 pe.2 =
        ⟨RelayResult.Skipped, 0, false, false, processed⟩ :=
      process_deposit_event_skip processed pe.1 pe.2 (by rw [hid]; exact hmem)
    obtain ⟨hrest, hst⟩ := runRelays_skip tid rest processed hmem
      fun p hp => hall p (List.mem_cons_of_mem _ hp)
    constructor
    · intro c hc
      simp only [runRelays, hpd] at hc
      rcases List.mem_cons.mp hc with rfl | hc'
      · exact ⟨rfl, rfl⟩
      · exact hrest c hc'
    · simp only [runRelays, hpd]
      exact hst

/-- Bookkeeping over a list of relay observations that are all `Skipped`. -/
theorem skipped_list_facts :
    ∀ (l : List RelayCall),
      (∀ c ∈ l, c.result = RelayResult.Skipped ∧ c.broadcastSucceeded = false) →
      (l.countP fun c => decide (c.result = RelayResult.Submitted)) = 0 ∧
      (l.countP fun c => c.broadcastSucceeded) = 0 ∧
      (l.all fun c' => decide (c'.result = RelayResult.Skipped)) = true ∧
      afterSubmittedSkipped l = true
  | [], _ => ⟨rfl, rfl, rfl, rfl⟩
  | c :: rest, h => by
    have hc := h c (List.mem_cons_self _ _)
    have hrest := skipped_list_facts rest fun c' hc' => h c' (List.mem_cons_of_mem _ hc')
    refine ⟨?_, ?_, ?_, ?_⟩ <;>
      simp [List.countP_cons, afterSubmittedSkipped, hc.1, hc.2, hrest.1, hrest.2.1,
        hrest.2.2.1, hrest.2.2.2]

/-! ### Claim theorems about the Idempotent Relay -/

/-- C3: for every sequence of `relay()` calls carrying the same
`crossChainTxId` (possibly under different `sourceTxHash` values) in which
some destination interaction succeeds, exactly one call returns `Submitted`,
every call after it returns `Skipped`, and the destination accepts exactly one
broadcast for the id. -/
theorem C3_relay_idempotency :
    ∀ (tid : Nat) (ps : List (DepositEvent × Option RelayStep)) (processed : List Nat),
      tid ∉ processed →
      (∀ p ∈ ps, p.1.transactionId = tid) →
      (∃ p ∈ ps, p.2 = none) →
      ((runRelays processed ps).1.countP
          fun c => decide (c.result = RelayResult.Submitted)) = 1 ∧
      afterSubmittedSkipped (runRelays processed ps).1 = true ∧
      ((runRelays processed ps).1.countP fun c => c.broadcastSucceeded) = 1
  | tid, [], processed => by
    intro _ _ hex
    rcases hex with ⟨p, hp, _⟩
    exact absurd hp (List.not_mem_nil p)
  | tid, pe :: rest, processed => by
    intro hnot hall hex
    have hid : pe.1.transactionId = tid := hall pe (List.mem_cons_self _ _)
    cases henv : pe.2 with
    | none =>
      have hpd : process_deposit_event processed pe.1 pe.2 =
          ⟨RelayResult.Submitted, 4, true, true, pe.1.transactionId :: processed⟩ := by
        rw [henv]
        exact process_fresh_ok processed pe.1 (by rw [hid]; exact hnot)
      obtain ⟨hrest, _⟩ := runRelays_skip tid rest (pe.1.transactionId :: processed)
        (by rw [hid]; exact List.mem_cons_self _ _)
        (fun p hp => hall p (List.mem_cons_of_mem _ hp))
      obtain ⟨hnz, hbz, hallskip, hass⟩ := skipped_list_facts _ hrest
      refine ⟨?_, ?_, ?_⟩
      · simp [runRelays, hpd, List.countP_cons, hnz]
      · simp [runRelays, hpd, afterSubmittedSkipped, hallskip, hass]
      · simp [runRelays, hpd, List.countP_cons, hbz]
    | some step =>
      have hpd : process_deposit_event processed pe.1 pe.2 =
          ⟨RelayResult.Failed, destCallsBefore step, decide (step = RelayStep.broadcast),
            false, processed⟩ := by
        rw [henv]
        exact process_fresh_fail processed pe.1 step (by rw [hid]; exact hnot)
      have hex' : ∃ p ∈ rest, p.2 = none := by
        rcases hex with ⟨p, hp, hpe⟩
        rcases List.mem_cons.mp hp with rfl | hp'
        · rw [henv] at hpe
          cases hpe
        · exact ⟨p, hp', hpe⟩
      obtain ⟨h1, h2, h3⟩ := C3_relay_idempotency tid rest processed hnot
        (fun p hp => hall p (List.mem_cons_of_mem _ hp)) hex'
      refine ⟨?_, ?_, ?_⟩
      · simp [runRelays, hpd, List.countP_cons, h1]
      · simp [runRelays, hpd, afterSubmittedSkipped, h2]
      · simp [runRelays, hpd, List.countP_cons, h3]

/-- Witness for C3, Scenario B shape: a failed first broadcast, a successful
second delivery under a different `sourceTxHash`, and a redundant third
delivery — one `Submitted`. -/
theorem C3_witness :
    ((runRelays []
        [(⟨1, 100, 0, 0, 0, 0, 5⟩, some RelayStep.broadcast),
         (⟨2, 100, 0, 0, 0, 0, 5⟩, none),
         (⟨1, 100, 0, 0, 0, 0, 5⟩, none)]).1.countP
      fun c => decide (c.result = RelayResult.Submitted)) = 1 :=
  (C3_relay_idempotency 5
    [(⟨1, 100, 0, 0, 0, 0, 5⟩, some RelayStep.broadcast),
     (⟨2, 100, 0, 0, 0, 0, 5⟩, none),
     (⟨1, 100, 0, 0, 0, 0, 5⟩, none)] [] (by decide) (by decide)
    ⟨(⟨2, 100, 0, 0, 0, 0, 5⟩, none), by decide, rfl⟩).1

/-- C5: if any step 2-5 raises, `relay()` returns `Failed` (boolean False) and
RelayState is unchanged, so a second call with the identical event passes the
idempotency check (is not `Skipped`) and, when its own run reaches the
broadcast step, a broadcast is attempted. -/
theorem C5_failed_relay_retryable :
    ∀ (processed : List Nat) (e : DepositEvent) (step : RelayStep) (env2 : Option RelayStep),
      e.transactionId ∉ processed →
      (process_deposit_event processed e (some step)).result = RelayResult.Failed ∧
      (process_deposit_event processed e (some step)).result.toBool = false ∧
      (process_deposit_event processed e (some step)).state' = processed ∧
      (process_deposit_event (process_deposit_event processed e (some step)).state' e
          env2).result ≠ RelayResult.Skipped ∧
      ((env2 = none ∨ env2 = some RelayStep.broadcast) →
        (process_deposit_event (process_deposit_event processed e (some step)).state' e
            env2).broadcastAttempted = true) := by
  intro processed e step env2 hnot
  have h1 := process_fresh_fail processed e step hnot
  refine ⟨by rw [h1], by rw [h1]; rfl, by rw [h1], ?_, ?_⟩
  · rw [h1]
    show (process_deposit_event processed e env2).result ≠ RelayResult.Skipped
    cases env2 with
    | none =>
      rw [process_fresh_ok processed e hnot]
      simp
    | some s2 =>
      rw [process_fresh_fail processed e s2 hnot]
      simp
  · rintro (rfl | rfl)
    · rw [h1]
      show (process_deposit_event processed e none).broadcastAttempted = true
      rw [process_fresh_ok processed e hnot]
    · rw [h1]
      show (process_deposit_event processed e (some RelayStep.broadcast)).broadcastAttempted =
        true
      rw [process_fresh_fail processed e RelayStep.broadcast hnot]
      simp

/-- Witness for C5, Scenario C shape: `estimate_gas` raises, then a retry with
a fully successful destination attempts the broadcast. -/
theorem C5_witness :
    (process_deposit_event [] ⟨1, 100, 0, 0, 0, 0, 5⟩ (some RelayStep.estimate)).result =
        RelayResult.Failed ∧
      (process_deposit_event
          (process_deposit_event [] ⟨1, 100, 0, 0, 0, 0, 5⟩ (some RelayStep.estimate)).state'
          ⟨1, 100, 0, 0, 0, 0, 5⟩ none).broadcastAttempted = true := by
  have h := C5_failed_relay_retryable [] ⟨1, 100, 0, 0, 0, 0, 5⟩ RelayStep.estimate none
    (by decide)
  exact ⟨h.1, h.2.2.2.2 (Or.inl rfl)⟩

/-- C10: an event whose id is already in RelayState returns the very boolean a
fresh successful broadcast returns (True), with no destination-chain call and
no state mutation; the boolean only separates success-or-skip from failure. -/
theorem C10_skip_path_boolean :
    (∀ (processed : List Nat) (e : DepositEvent) (env : Option RelayStep),
        e.transactionId ∈ processed →
        (process_deposit_event processed e env).result = RelayResult.Skipped ∧
        (process_deposit_event processed e env).result.toBool = true ∧
        (process_deposit_event processed e env).destCalls = 0 ∧
        (process_deposit_event processed e env).broadcastAttempted = false ∧
        (process_deposit_event processed e env).state' = processed) ∧
    (∀ (processed : List Nat) (e : DepositEvent),
        e.transactionId ∉ processed →
        (process_deposit_event processed e none).result = RelayResult.Submitted ∧
        (process_deposit_event processed e none).result.toBool = true) ∧
    (∀ r : RelayResult, r.toBool = false ↔ r = RelayResult.Failed) := by
  refine ⟨?_, ?_, ?_⟩
  · intro processed e env hmem
    rw [process_deposit_event_skip processed e env hmem]
    exact ⟨rfl, rfl, rfl, rfl, rfl⟩
  · intro processed e hnot
    rw [process_fresh_ok processed e hnot]
    exact ⟨rfl, rfl⟩
  · intro r
    cases r <;> simp [RelayResult.toBool]

/-- Witness for C10: a duplicate id returns True even though the destination
would have raised. -/
theorem C10_witness :
    (process_deposit_event [5] ⟨1, 100, 0, 0, 0, 0, 5⟩
      (some RelayStep.estimate)).result.toBool = true :=
  (C10_skip_path_boolean.1 [5] ⟨1, 100, 0, 0, 0, 0, 5⟩ (some RelayStep.estimate)
    (by decide)).2.1

/-! ### Claim theorems about the Liveness Reporter -/

/-- C4 counterexample: with the Health Sink unreachable, three `report()`
calls spaced 20 seconds apart (interval 60s) each make a push attempt — three
attempts, not at most one — because `last_checkin` is only updated when the
post does not raise (line 312 is skipped by the handler at line 313). -/
theorem C4_counterexample :
    ((runReports 0
        [(1000, SinkOutcome.unreachable), (1020, SinkOutcome.unreachable),
         (1040, SinkOutcome.unreachable)]).1.countP fun r => r.isSome) = 3 ∧
      (runReports 0
        [(1000, SinkOutcome.unreachable), (1020, SinkOutcome.unreachable),
         (1040, SinkOutcome.unreachable)]).2 = 0 ∧
      ¬ (3 : Nat) ≤ 1 := by
  decide

/-- C4 (amended): a push is attempted exactly when 60 seconds have elapsed
since `last_checkin`; `last_checkin` is updated to the current time only when
the attempt received an HTTP response (any status code) — when the request
raises, it is left unchanged.  Consequently three calls spaced 20s apart with
the sink unreachable on every attempt make three push attempts. -/
theorem C4_rate_limit_behavior :
    (∀ (last_checkin current_time : Int) (status : Status) (b p : Nat) (sink : SinkOutcome),
        ((report_status last_checkin current_time status b p sink).1.isSome =
          decide (checkin_interval ≤ current_time - last_checkin)) ∧
        (report_status last_checkin current_time status b p sink).2 =
          (if checkin_interval ≤ current_time - last_checkin ∧ sink ≠ SinkOutcome.unreachable
            then current_time else last_checkin)) ∧
    ((runReports 0
        [(1000, SinkOutcome.unreachable), (1020, SinkOutcome.unreachable),
         (1040, SinkOutcome.unreachable)]).1.countP fun r => r.isSome) = 3 := by
  constructor
  · intro last_checkin current_time status b p sink
    by_cases h : current_time - last_checkin < checkin_interval
    · have h' : ¬ checkin_interval ≤ current_time - last_checkin := not_le.mpr h
      exact ⟨by simp [report_status, h, h'], by simp [report_status, h, h']⟩
    · have h' : checkin_interval ≤ current_time - last_checkin := not_lt.mp h
      cases sink with
      | responded code => exact ⟨by simp [report_status, h, h'], by simp [report_status, h, h']⟩
      | unreachable => exact ⟨by simp [report_status, h, h'], by simp [report_status, h, h']⟩
  · decide

/-- C8 counterexample: an unhandled loop error 10 seconds after a successful
check-in produces no ERROR push attempt at all — the fatal report goes through
the rate limiter, whether the sink would respond or not. -/
theorem C8_counterexample :
    (fatal_error_report 1000 1010 SinkOutcome.unreachable).1 = none ∧
      (fatal_error_report 1000 1010 (SinkOutcome.responded 200)).1 = none := by
  decide

/-- C8 (amended): on an unhandled loop error the orchestrator calls the
rate-limited reporter with status ERROR; the push attempt reaches the Health
Sink boundary exactly when 60 seconds have elapsed since `last_checkin` —
otherwise the ERROR report is silently dropped. -/
theorem C8_fatal_report_rate_limited :
    ∀ (last_checkin current_time : Int) (sink : SinkOutcome),
      checkin_interval ≤ current_time - last_checkin →
      (fatal_error_report last_checkin current_time sink).1 =
        some ⟨Status.ERROR, current_time, 0, 0⟩ := by
  intro lc ct sink h
  unfold fatal_error_report report_status
  rw [if_neg (not_lt.mpr h)]
  cases sink <;> rfl

/-- Witness for the amended C8 at a concrete post-window error. -/
theorem C8_witness :
    (fatal_error_report 0 1000 SinkOutcome.unreachable).1 =
      some ⟨Status.ERROR, 1000, 0, 0⟩ :=
  C8_fatal_report_rate_limited 0 1000 SinkOutcome.unreachable (by decide)

/-! ### Lemmas and claim theorems about the orchestrator loop -/

/-- The listener's dedup set never shrinks across a cycle. -/
theorem runCycle_listener_mono (conf : Int) (st : SystemState) (env : CycleEnv) (x : Nat)
    (hx : x ∈ st.listener) : x ∈ (runCycle conf st env).1.listener :=
  gce_mono conf st.listener env.poll x hx

/-- An event whose hash is already in the listener's dedup set is not surfaced
by a cycle. -/
theorem runCycle_no_resurface (conf : Int) (st : SystemState) (env : CycleEnv)
    (e : DepositEvent) (hx : e.transactionHash ∈ st.listener) :
    e ∉ (runCycle conf st env).2.1 := fun hin =>
  gce_out_fresh conf st.listener env.poll e hin hx

/-- An event whose hash is already in the listener's dedup set is surfaced by
no later cycle, whatever the environments deliver. -/
theorem runCycles_no_resurface (conf : Int) (e : DepositEvent) :
    ∀ (envs : List CycleEnv) (st : SystemState),
      e.transactionHash ∈ st.listener →
      ∀ cyc ∈ (runCycles conf st envs).2, e ∉ cyc.1
  | [], st => by
    intro _
    simp [runCycles]
  | env :: rest, st => by
    intro hx
    simp only [runCycles, List.mem_cons]
    rintro cyc (rfl | hcyc)
    · exact runCycle_no_resurface conf st env e hx
    · exact runCycles_no_resurface conf e rest (runCycle conf st env).1
        (runCycle_listener_mono conf st env _ hx) cyc hcyc

/-- C1 (amended): when a surfaced event's relay fails, RelayState is indeed
unchanged, but the event is not naturally retried: its hash entered
ConfirmationState at the moment it was surfaced, so the watcher never
re-surfaces it on any later cycle — even if the log fetch redelivers it — and
the relay is never re-attempted; the deposit is permanently dropped. -/
theorem C1_failed_relay_never_retried :
    ∀ (conf : Int) (st : SystemState) (e : DepositEvent) (latest : Nat) (step : RelayStep)
      (envs : List CycleEnv),
      e.transactionHash ∉ st.listener →
      e.transactionId ∉ st.relay →
      latest ≠ 0 →
      conf ≤ (latest : Int) - (e.blockNumber : Int) →
      (runCycle conf st ⟨⟨Except.ok latest, Except.ok [e]⟩, [some step]⟩).2.1 = [e] ∧
      ((runCycle conf st ⟨⟨Except.ok latest, Except.ok [e]⟩, [some step]⟩).2.2.map
        fun c => c.result) = [RelayResult.Failed] ∧
      (runCycle conf st ⟨⟨Except.ok latest, Except.ok [e]⟩, [some step]⟩).1.relay =
        st.relay ∧
      e.transactionHash ∈
        (runCycle conf st ⟨⟨Except.ok latest, Except.ok [e]⟩, [some step]⟩).1.listener ∧
      ∀ cyc ∈ (runCycles conf
          (runCycle conf st ⟨⟨Except.ok latest, Except.ok [e]⟩, [some step]⟩).1 envs).2,
        e ∉ cyc.1 := by
  intro conf st e latest step envs hl hr h0 hconf
  have hgce := gce_single_confirmed conf latest st.listener e hl h0 hconf
  have hcycle : runCycle conf st ⟨⟨Except.ok latest, Except.ok [e]⟩, [some step]⟩ =
      (⟨e.transactionHash :: st.listener, st.relay⟩, [e],
        [⟨RelayResult.Failed, destCallsBefore step, decide (step = RelayStep.broadcast),
          false, st.relay⟩]) := by
    unfold runCycle
    rw [hgce]
    simp [relayAll, process_fresh_fail st.relay e step hr]
  rw [hcycle]
  refine ⟨rfl, rfl, rfl, List.mem_cons_self _ _, ?_⟩
  exact runCycles_no_resurface conf e envs ⟨e.transactionHash :: st.listener, st.relay⟩
    (List.mem_cons_self _ _)

/-- C1 counterexample: Scenario C dynamics — `estimate_gas` raising makes the
relay fail in cycle 1, RelayState stays empty, and even though the fetch
redelivers the event in cycle 2, the watcher surfaces nothing and no relay
call is made: the claimed natural retry never happens. -/
theorem C1_counterexample :
    (runCycles 12 ⟨[], []⟩
        [⟨⟨Except.ok 120, Except.ok [⟨1, 100, 0, 0, 0, 0, 5⟩]⟩, [some RelayStep.estimate]⟩,
         ⟨⟨Except.ok 130, Except.ok [⟨1, 100, 0, 0, 0, 0, 5⟩]⟩,
           [some RelayStep.estimate]⟩]).2 =
      [([⟨1, 100, 0, 0, 0, 0, 5⟩], [⟨RelayResult.Failed, 3, false, false, []⟩]), ([], [])] ∧
    (runCycles 12 ⟨[], []⟩
        [⟨⟨Except.ok 120, Except.ok [⟨1, 100, 0, 0, 0, 0, 5⟩]⟩, [some RelayStep.estimate]⟩,
         ⟨⟨Except.ok 130, Except.ok [⟨1, 100, 0, 0, 0, 0, 5⟩]⟩,
           [some RelayStep.estimate]⟩]).1.relay = [] := by
  decide

/-- Witness for the amended C1: the failed relay leaves RelayState empty. -/
theorem C1_witness :
    (runCycle 12 ⟨[], []⟩
        ⟨⟨Except.ok 120, Except.ok [⟨1, 100, 0, 0, 0, 0, 5⟩]⟩,
          [some RelayStep.estimate]⟩).1.relay = [] :=
  (C1_failed_relay_never_retried 12 ⟨[], []⟩ ⟨1, 100, 0, 0, 0, 0, 5⟩ 120 RelayStep.estimate
    [] (by decide) (by decide) (by decide) (by decide)).2.2.1

end Gainer
